import Mathlib

/-!
Verification of the easel repository fragment: the ARM NEON inline vector
utilities of `src/esl_neon.h`, and the six-frame ORF scanner/translator
specified by the `esl-translate` manual page and the design specification.

Part 1 embeds the NEON helpers.  A 128-bit float vector is four lanes; lane
values are modelled as rationals (the helpers only move lanes and compare
them, so only the ordering of lane values matters).  A 128-bit u8 vector is
sixteen byte lanes, each a `Fin 256`.  Lane numbering is the little-endian
NEON lane order: u32 lane j is byte lanes 4j..4j+3 (low byte first), u64
lane j is byte lanes 8j..8j+7.
-/

/-- Four 32-bit float lanes of an `esl_neon_128f_t` (`f32x4` view). -/
structure F32x4 where
  f0 : ℚ
  f1 : ℚ
  f2 : ℚ
  f3 : ℚ
deriving DecidableEq

/-- `vrev64q_f32`: reverse the two 32-bit lanes inside each 64-bit half. -/
def vrev64q_f32 (v : F32x4) : F32x4 := ⟨v.f1, v.f0, v.f3, v.f2⟩

/-- `vextq_f32 x y 2`: lanes 2,3 of `x` followed by lanes 0,1 of `y`. -/
def vextq_f32_2 (x y : F32x4) : F32x4 := ⟨x.f2, x.f3, y.f0, y.f1⟩

/-- `vextq_f32 x y 3`: lane 3 of `x` followed by lanes 0,1,2 of `y`. -/
def vextq_f32_3 (x y : F32x4) : F32x4 := ⟨x.f3, y.f0, y.f1, y.f2⟩

/-- `vextq_f32 x y 1`: lanes 1,2,3 of `x` followed by lane 0 of `y`. -/
def vextq_f32_1 (x y : F32x4) : F32x4 := ⟨x.f1, x.f2, x.f3, y.f0⟩

/-- One lane of `vcgtq_f32`: an all-ones 32-bit mask when `x > y`, else 0.
The mask value is kept as the natural number 2^32 - 1. -/
def vcgtq_f32_lane (x y : ℚ) : ℕ := if y < x then 4294967295 else 0

/-- `esl_neon_rightshift_float` from `esl_neon.h`, line for line:
`v = vrev64q_f32(b); v = vextq_f32(v,v,2); v = vextq_f32(v,a,3)`. -/
def esl_neon_rightshift_float (a b : F32x4) : F32x4 :=
  let v1 := vrev64q_f32 b
  let v2 := vextq_f32_2 v1 v1
  let v3 := vextq_f32_3 v2 a
  v3

/-- `esl_neon_leftshift_float` from `esl_neon.h`: `vextq_f32(a,b,1)`. -/
def esl_neon_leftshift_float (a b : F32x4) : F32x4 := vextq_f32_1 a b

/-- `esl_neon_any_gt_float` from `esl_neon.h`.  The comparison mask is
viewed through the `u64x2` union member; the two 64-bit lane extracts are
assigned to C variables `l0`, `l1` declared as (32-bit) `int`, which
truncates each 64-bit value to its low 32 bits before the `l0 | l1` test.
The truncation is modelled by `% 4294967296`. -/
def esl_neon_any_gt_float (a b : F32x4) : Bool :=
  let m0 := vcgtq_f32_lane a.f0 b.f0
  let m1 := vcgtq_f32_lane a.f1 b.f1
  let m2 := vcgtq_f32_lane a.f2 b.f2
  let m3 := vcgtq_f32_lane a.f3 b.f3
  let u64lane0 := m0 + 4294967296 * m1
  let u64lane1 := m2 + 4294967296 * m3
  let l0 := u64lane0 % 4294967296
  let l1 := u64lane1 % 4294967296
  decide ((l0 ||| l1) ≠ 0)

/-- Sixteen unsigned byte lanes of an `esl_neon_128i_t` (`u8x16` view). -/
structure U8x16 where
  b0 : Fin 256
  b1 : Fin 256
  b2 : Fin 256
  b3 : Fin 256
  b4 : Fin 256
  b5 : Fin 256
  b6 : Fin 256
  b7 : Fin 256
  b8 : Fin 256
  b9 : Fin 256
  b10 : Fin 256
  b11 : Fin 256
  b12 : Fin 256
  b13 : Fin 256
  b14 : Fin 256
  b15 : Fin 256
deriving DecidableEq

/-- `vmaxq_u8`: lanewise unsigned byte maximum. -/
def vmaxq_u8 (a b : U8x16) : U8x16 :=
  ⟨max a.b0 b.b0, max a.b1 b.b1, max a.b2 b.b2, max a.b3 b.b3,
   max a.b4 b.b4, max a.b5 b.b5, max a.b6 b.b6, max a.b7 b.b7,
   max a.b8 b.b8, max a.b9 b.b9, max a.b10 b.b10, max a.b11 b.b11,
   max a.b12 b.b12, max a.b13 b.b13, max a.b14 b.b14, max a.b15 b.b15⟩

/-- `vextq_u32 v v 2` seen on byte lanes: rotate the bytes down by 8. -/
def vextq_u32_2_bytes (v : U8x16) : U8x16 :=
  ⟨v.b8, v.b9, v.b10, v.b11, v.b12, v.b13, v.b14, v.b15,
   v.b0, v.b1, v.b2, v.b3, v.b4, v.b5, v.b6, v.b7⟩

/-- `vextq_u32 v v 1` seen on byte lanes: rotate the bytes down by 4. -/
def vextq_u32_1_bytes (v : U8x16) : U8x16 :=
  ⟨v.b4, v.b5, v.b6, v.b7, v.b8, v.b9, v.b10, v.b11,
   v.b12, v.b13, v.b14, v.b15, v.b0, v.b1, v.b2, v.b3⟩

/-- `vrev64q_u16` seen on byte lanes: reverse the four 16-bit lanes inside
each 64-bit half, keeping byte order within each 16-bit lane. -/
def vrev64q_u16_bytes (v : U8x16) : U8x16 :=
  ⟨v.b6, v.b7, v.b4, v.b5, v.b2, v.b3, v.b0, v.b1,
   v.b14, v.b15, v.b12, v.b13, v.b10, v.b11, v.b8, v.b9⟩

/-- `vrev64q_u8`: reverse the eight bytes inside each 64-bit half. -/
def vrev64q_u8_bytes (v : U8x16) : U8x16 :=
  ⟨v.b7, v.b6, v.b5, v.b4, v.b3, v.b2, v.b1, v.b0,
   v.b15, v.b14, v.b13, v.b12, v.b11, v.b10, v.b9, v.b8⟩

/-- `esl_neon_hmax_u8` from `esl_neon.h`: four shuffle/max rounds, then
extract byte lane 15. -/
def esl_neon_hmax_u8 (a : U8x16) : Fin 256 :=
  let a1 := vmaxq_u8 a (vextq_u32_2_bytes a)
  let a2 := vmaxq_u8 a1 (vextq_u32_1_bytes a1)
  let a3 := vmaxq_u8 a2 (vrev64q_u16_bytes a2)
  let a4 := vmaxq_u8 a3 (vrev64q_u8_bytes a3)
  a4.b15

/-- The mathematical maximum of the sixteen byte lanes. -/
def u8maxSpec (a : U8x16) : Fin 256 :=
  max a.b0 (max a.b1 (max a.b2 (max a.b3 (max a.b4 (max a.b5 (max a.b6
    (max a.b7 (max a.b8 (max a.b9 (max a.b10 (max a.b11 (max a.b12
    (max a.b13 (max a.b14 a.b15))))))))))))))

/-- C10: `esl_neon_rightshift_float a b` returns lanes `{ b0 a0 a1 a2 }`:
the lanes of `a` shifted right by one, with the first lane of `b` loaded
into the first slot. -/
theorem rightshift_float_lanes (a b : F32x4) :
    esl_neon_rightshift_float a b = ⟨b.f0, a.f0, a.f1, a.f2⟩ := rfl

/-- The four shuffle/max rounds of `esl_neon_hmax_u8`, written out: byte
lane 15 of the final round is a balanced max tree over all sixteen lanes. -/
lemma hmax_u8_unfold (a : U8x16) :
    esl_neon_hmax_u8 a =
      max (max (max (max a.b15 a.b7) (max a.b3 a.b11))
               (max (max a.b9 a.b1) (max a.b13 a.b5)))
          (max (max (max a.b8 a.b0) (max a.b12 a.b4))
               (max (max a.b14 a.b6) (max a.b2 a.b10))) := rfl

/-- C9: `esl_neon_hmax_u8 a` returns the maximum of the sixteen byte
lanes of `a`. -/
theorem hmax_u8_correct (a : U8x16) : esl_neon_hmax_u8 a = u8maxSpec a := by
  rw [hmax_u8_unfold]
  simp only [u8maxSpec]
  apply le_antisymm <;>
    · simp only [max_le_iff]
      simp only [le_max_iff]
      simp only [le_refl, true_or, or_true, and_self]

/-- C8: the claim that `esl_neon_any_gt_float a b` is nonzero iff some lane
of `a` exceeds the corresponding lane of `b` fails on the code: with
`a = (0,1,0,0)` and `b = (0,0,0,0)` lane 1 of `a` exceeds lane 1 of `b`,
yet the function returns 0, because the `int`-typed `l0`/`l1` keep only the
low 32 bits of each 64-bit mask extract and so drop comparison lanes 1 and
3 entirely. -/
theorem any_gt_float_drops_lanes :
    esl_neon_any_gt_float ⟨0, 1, 0, 0⟩ ⟨0, 0, 0, 0⟩ = false ∧
      (F32x4.mk 0 0 0 0).f1 < (F32x4.mk 0 1 0 0).f1 := by
  constructor
  · decide
  · norm_num

/-!
Part 2: the six-frame ORF scanner/translator of `esl-translate`.

The scanner's implementation is not part of the source fragment; only its
manual page is.  All definitions in this part are therefore modelled from
the specification (its data model in section 3, the frame state machine in
section 4.3, the scan driver in section 4.4 and the emitter in section
4.5), and every claim about them is settled against this model.
-/

/-- Modelled from the spec: a nucleotide symbol.  `N` stands for any
ambiguity code, which translates to the unknown residue. -/
inductive Nuc
  | A
  | C
  | G
  | T
  | N
deriving DecidableEq

/-- Modelled from the spec: Watson-Crick complement of one nucleotide. -/
def complement : Nuc → Nuc
  | .A => .T
  | .T => .A
  | .C => .G
  | .G => .C
  | .N => .N

/-- Modelled from the spec: reverse complement of a sequence. -/
def revcomp (s : List Nuc) : List Nuc := (s.map complement).reverse

/-- An ordered triplet of nucleotides. -/
abbrev Codon := Nuc × Nuc × Nuc

/-- Result of translating one codon: an amino acid, a stop signal, or the
unknown residue for ambiguous codons. -/
inductive TransRes
  | aa (c : Char)
  | stop
  | unknown
deriving DecidableEq

/-- Modelled from the spec: the standard genetic code (NCBI transl_table 1),
codon to amino acid, with `TAA`, `TAG`, `TGA` as stops and every codon
containing an ambiguity translating to the unknown residue. -/
def stdTranslate : Codon → TransRes
  | (.T, .T, .T) => .aa 'F'
  | (.T, .T, .C) => .aa 'F'
  | (.T, .T, .A) => .aa 'L'
  | (.T, .T, .G) => .aa 'L'
  | (.C, .T, .T) => .aa 'L'
  | (.C, .T, .C) => .aa 'L'
  | (.C, .T, .A) => .aa 'L'
  | (.C, .T, .G) => .aa 'L'
  | (.A, .T, .T) => .aa 'I'
  | (.A, .T, .C) => .aa 'I'
  | (.A, .T, .A) => .aa 'I'
  | (.A, .T, .G) => .aa 'M'
  | (.G, .T, .T) => .aa 'V'
  | (.G, .T, .C) => .aa 'V'
  | (.G, .T, .A) => .aa 'V'
  | (.G, .T, .G) => .aa 'V'
  | (.T, .C, .T) => .aa 'S'
  | (.T, .C, .C) => .aa 'S'
  | (.T, .C, .A) => .aa 'S'
  | (.T, .C, .G) => .aa 'S'
  | (.C, .C, .T) => .aa 'P'
  | (.C, .C, .C) => .aa 'P'
  | (.C, .C, .A) => .aa 'P'
  | (.C, .C, .G) => .aa 'P'
  | (.A, .C, .T) => .aa 'T'
  | (.A, .C, .C) => .aa 'T'
  | (.A, .C, .A) => .aa 'T'
  | (.A, .C, .G) => .aa 'T'
  | (.G, .C, .T) => .aa 'A'
  | (.G, .C, .C) => .aa 'A'
  | (.G, .C, .A) => .aa 'A'
  | (.G, .C, .G) => .aa 'A'
  | (.T, .A, .T) => .aa 'Y'
  | (.T, .A, .C) => .aa 'Y'
  | (.T, .A, .A) => .stop
  | (.T, .A, .G) => .stop
  | (.C, .A, .T) => .aa 'H'
  | (.C, .A, .C) => .aa 'H'
  | (.C, .A, .A) => .aa 'Q'
  | (.C, .A, .G) => .aa 'Q'
  | (.A, .A, .T) => .aa 'N'
  | (.A, .A, .C) => .aa 'N'
  | (.A, .A, .A) => .aa 'K'
  | (.A, .A, .G) => .aa 'K'
  | (.G, .A, .T) => .aa 'D'
  | (.G, .A, .C) => .aa 'D'
  | (.G, .A, .A) => .aa 'E'
  | (.G, .A, .G) => .aa 'E'
  | (.T, .G, .T) => .aa 'C'
  | (.T, .G, .C) => .aa 'C'
  | (.T, .G, .A) => .stop
  | (.T, .G, .G) => .aa 'W'
  | (.C, .G, .T) => .aa 'R'
  | (.C, .G, .C) => .aa 'R'
  | (.C, .G, .A) => .aa 'R'
  | (.C, .G, .G) => .aa 'R'
  | (.A, .G, .T) => .aa 'S'
  | (.A, .G, .C) => .aa 'S'
  | (.A, .G, .A) => .aa 'R'
  | (.A, .G, .G) => .aa 'R'
  | (.G, .G, .T) => .aa 'G'
  | (.G, .G, .C) => .aa 'G'
  | (.G, .G, .A) => .aa 'G'
  | (.G, .G, .G) => .aa 'G'
  | _ => .unknown

/-- Modelled from the spec: a genetic-code table, exposing codon
translation, the initiator set, and its NCBI transl_table id. -/
structure GeneticCode where
  transl_table : ℕ
  translate : Codon → TransRes
  isInitiator : Codon → Bool

/-- The standard code: initiators are `ATG`, `CTG`, `TTG`. -/
def stdCode : GeneticCode where
  transl_table := 1
  translate := stdTranslate
  isInitiator := fun c =>
    c = (.A, .T, .G) || c = (.C, .T, .G) || c = (.T, .T, .G)

/-- Errors of the translator, from the spec's error handling design. -/
inductive TranslateError
  | invalidCodeId
  | nonRewindableSource
  | ioError
deriving DecidableEq

/-- Modelled from the spec: construct a genetic-code table from its NCBI
transl_table id; ids outside the enumerated set fail with `InvalidCodeId`.
The spec fixes the codon data only for table 1; the other valid ids are
given placeholder tables carrying their id. -/
def geneticCodeFromId : ℕ → Except TranslateError GeneticCode
  | 1 => .ok stdCode
  | 2 => .ok { stdCode with transl_table := 2 }
  | 3 => .ok { stdCode with transl_table := 3 }
  | 4 => .ok { stdCode with transl_table := 4 }
  | 5 => .ok { stdCode with transl_table := 5 }
  | 6 => .ok { stdCode with transl_table := 6 }
  | 9 => .ok { stdCode with transl_table := 9 }
  | 10 => .ok { stdCode with transl_table := 10 }
  | 11 => .ok { stdCode with transl_table := 11 }
  | 12 => .ok { stdCode with transl_table := 12 }
  | 13 => .ok { stdCode with transl_table := 13 }
  | 14 => .ok { stdCode with transl_table := 14 }
  | 16 => .ok { stdCode with transl_table := 16 }
  | 21 => .ok { stdCode with transl_table := 21 }
  | 22 => .ok { stdCode with transl_table := 22 }
  | 23 => .ok { stdCode with transl_table := 23 }
  | 24 => .ok { stdCode with transl_table := 24 }
  | 25 => .ok { stdCode with transl_table := 25 }
  | _ => .error .invalidCodeId

/-- Modelled from the spec: start-codon policy. -/
inductive StartPolicy
  | none
  | requireAUG
  | requireAnyInitiator
deriving DecidableEq

/-- Modelled from the spec: strand selection. -/
inductive Strand
  | both
  | watsonOnly
  | crickOnly
deriving DecidableEq

/-- Configuration of one scan: genetic code, start policy, minimum ORF
length in amino acids, strand selection. -/
structure ScanConfig where
  gc : GeneticCode
  policy : StartPolicy
  minLen : ℕ
  strand : Strand

/-- Natural translation of a codon to a residue character; ambiguity gives
the unknown residue symbol. -/
def natRes (gc : GeneticCode) (c : Codon) : Char :=
  match gc.translate c with
  | .aa a => a
  | .unknown => 'X'
  | .stop => '*'

/-- Whether a codon is a stop under the table. -/
def isStop (gc : GeneticCode) (c : Codon) : Bool :=
  match gc.translate c with
  | .stop => true
  | _ => false

/-- Modelled from the spec, rule 1 of the frame state machine: whether an
idle frame may open an ORF at codon `c`.  A stop codon never opens an ORF
(an ORF is a run of codons bounded by a stop). -/
def mayOpen (gc : GeneticCode) (policy : StartPolicy) (c : Codon) : Bool :=
  match policy with
  | .none => !isStop gc c
  | .requireAUG => c = (.A, .T, .G)
  | .requireAnyInitiator => gc.isInitiator c

/-- Modelled from the spec, rule 1: the residue pushed at opening is
Methionine when an initiator-requiring policy is in force, else the
natural translation. -/
def openResidue (gc : GeneticCode) (policy : StartPolicy) (c : Codon) : Char :=
  match policy with
  | .none => natRes gc c
  | .requireAUG => 'M'
  | .requireAnyInitiator => 'M'

/-- A completed ORF in view coordinates: 1-based start and end positions of
its first and last codon nucleotides in the scanned view, and its
amino-acid sequence. -/
structure OrfView where
  vstart : ℕ
  vend : ℕ
  aas : List Char
deriving DecidableEq

/-- Modelled from the spec, section 4.3: one transition of a frame state
machine on the codon `c` whose first nucleotide is view position `p`.
State `Option.none` is `Idle`; `some (s, acc)` is `Open` since position
`s` with accumulated residues `acc`.  Returns the next state and the
emitted ORF, if this codon closed one of at least the minimum length. -/
def stepFrame (cfg : ScanConfig) (p : ℕ) (st : Option (ℕ × List Char))
    (c : Codon) : Option (ℕ × List Char) × Option OrfView :=
  match st with
  | Option.none =>
    if mayOpen cfg.gc cfg.policy c then
      (some (p, [openResidue cfg.gc cfg.policy c]), Option.none)
    else
      (Option.none, Option.none)
  | some (s, acc) =>
    if isStop cfg.gc c then
      if cfg.minLen ≤ acc.length then (Option.none, some ⟨s, p - 1, acc⟩)
      else (Option.none, Option.none)
    else
      (some (s, acc ++ [natRes cfg.gc c]), Option.none)

/-- Run a frame state machine over a list of codons starting at view
position `p`, returning the final state and the emitted ORFs in order. -/
def runFrameState (cfg : ScanConfig) :
    ℕ → Option (ℕ × List Char) → List Codon →
      Option (ℕ × List Char) × List OrfView
  | _, st, [] => (st, [])
  | p, st, c :: cs =>
    let pr := stepFrame cfg p st c
    let rest := runFrameState cfg (p + 3) pr.1 cs
    (rest.1, pr.2.toList ++ rest.2)

/-- The emitted ORFs of a frame run; an ORF still open at the end of the
codon list is discarded (spec rule 4). -/
def runFrame (cfg : ScanConfig) (p : ℕ) (st : Option (ℕ × List Char))
    (cs : List Codon) : List OrfView :=
  (runFrameState cfg p st cs).2

/-- Consecutive non-overlapping codons of a nucleotide list; a trailing
fragment of fewer than three nucleotides is dropped. -/
def chunk3 : List Nuc → List Codon
  | a :: b :: c :: rest => (a, b, c) :: chunk3 rest
  | _ => []

/-- The 1-based inclusive subrange `[s, e]` of a nucleotide list. -/
def seg (v : List Nuc) (s e : ℕ) : List Nuc :=
  (v.drop (s - 1)).take (e + 1 - s)

/-- Modelled from the spec: scan one frame of the view `v` (the top strand
or its reverse complement), reading codons from 0-based offset `off`;
emitted coordinates are view positions. -/
def scanFrameView (cfg : ScanConfig) (v : List Nuc) (off : ℕ) : List OrfView :=
  runFrame cfg (off + 1) Option.none (chunk3 (v.drop off))

/-- An ORF record before numbering: top-strand 1-based coordinates (start
greater than end encodes the bottom strand), frame index 1..6, and the
amino-acid sequence. -/
structure PreRecord where
  startCoord : ℕ
  endCoord : ℕ
  frameIndex : ℕ
  aas : List Char
deriving DecidableEq

/-- ORFs of forward frame `f` (1..3): view positions are top-strand
coordinates. -/
def fwdRecords (cfg : ScanConfig) (s : List Nuc) (f : ℕ) : List PreRecord :=
  (scanFrameView cfg s (f - 1)).map fun o =>
    ⟨o.vstart, o.vend, f, o.aas⟩

/-- ORFs of reverse frame `f` (4..6): scanned on the reverse complement,
view position `q` maps to top-strand coordinate `L - q + 1`, so the
emitted start coordinate exceeds the end coordinate. -/
def revRecords (cfg : ScanConfig) (s : List Nuc) (f : ℕ) : List PreRecord :=
  (scanFrameView cfg (revcomp s) (f - 4)).map fun o =>
    ⟨s.length - o.vstart + 1, s.length - o.vend + 1, f, o.aas⟩

/-- Whether the top strand is scanned under a strand selection. -/
def wantWatson : Strand → Bool
  | .crickOnly => false
  | _ => true

/-- Whether the bottom strand is scanned under a strand selection. -/
def wantCrick : Strand → Bool
  | .watsonOnly => false
  | _ => true

/-- Modelled from the spec, section 4.4: all completed ORFs of the
requested strands, in scan order. -/
def allRecords (cfg : ScanConfig) (s : List Nuc) : List PreRecord :=
  (if wantWatson cfg.strand then
    fwdRecords cfg s 1 ++ fwdRecords cfg s 2 ++ fwdRecords cfg s 3
  else []) ++
  (if wantCrick cfg.strand then
    revRecords cfg s 4 ++ revRecords cfg s 5 ++ revRecords cfg s 6
  else [])

/-- The top-strand position on which emission is ordered. -/
def minCoordP (r : PreRecord) : ℕ := min r.startCoord r.endCoord

/-- 0 for a forward-strand record, 1 for a reverse-strand record. -/
def strandFlagP (r : PreRecord) : ℕ := if r.frameIndex ≤ 3 then 0 else 1

/-- Emission order key: ascending top-strand position, forward strand
before reverse strand on ties. -/
def orderKey (r : PreRecord) : ℕ := 2 * minCoordP r + strandFlagP r

/-- The emission order relation. -/
def recLE (a b : PreRecord) : Prop := orderKey a ≤ orderKey b

instance : DecidableRel recLE := fun _ _ => Nat.decLe _ _

instance : IsTotal PreRecord recLE := ⟨fun _ _ => Nat.le_total _ _⟩

instance : IsTrans PreRecord recLE := ⟨fun _ _ _ => Nat.le_trans⟩

/-- Modelled from the spec, section 4.5: stable sort of the completed ORFs
into the required global emission order. -/
def sortRecords (l : List PreRecord) : List PreRecord :=
  List.insertionSort recLE l

/-- An emitted ORF record: dense 1-based number, top-strand coordinates,
frame index and amino-acid sequence.  (The record's amino-acid length
field of the spec is `aminoAcidLength`.) -/
structure ORFRecord where
  number : ℕ
  startCoord : ℕ
  endCoord : ℕ
  frameIndex : ℕ
  aas : List Char
deriving DecidableEq

/-- Length of the ORF in amino acids. -/
def aminoAcidLength (r : ORFRecord) : ℕ := r.aas.length

/-- Assign dense 1-based numbers to ordered records. -/
def numberRecords (l : List PreRecord) : List ORFRecord :=
  List.zipWith (fun i r => ⟨i + 1, r.startCoord, r.endCoord, r.frameIndex, r.aas⟩)
    (List.range l.length) l

/-- Modelled from the spec: the complete scan of one source sequence:
collect the completed ORFs of all requested frames, sort them into the
global emission order, and number them. -/
def fullScan (cfg : ScanConfig) (s : List Nuc) : List ORFRecord :=
  numberRecords (sortRecords (allRecords cfg s))

/-- Run configuration as consumed at configuration time, before any
scanning: genetic code id, policy, minimum length, strands. -/
structure RunConfig where
  codeId : ℕ
  policy : StartPolicy
  minLen : ℕ
  strand : Strand

/-- Modelled from the spec: a whole run.  The genetic code table is
constructed first; an invalid id is fatal at configuration time, before
any sequence is scanned. -/
def runTranslate (rc : RunConfig) (s : List Nuc) :
    Except TranslateError (List ORFRecord) :=
  match geneticCodeFromId rc.codeId with
  | .error e => .error e
  | .ok gc => .ok (fullScan ⟨gc, rc.policy, rc.minLen, rc.strand⟩ s)

/-- Independent re-translation of an emitted record's nucleotide subrange
`[startCoord, endCoord]`, reverse-complemented first when the start
exceeds the end, codon by codon with the configured code.  This follows
the spec's round-trip property word for word. -/
def roundTrip (gc : GeneticCode) (s : List Nuc) (a b : ℕ) : List Char :=
  if a ≤ b then (chunk3 (seg s a b)).map (natRes gc)
  else (chunk3 (revcomp (seg s b a))).map (natRes gc)

/-- Codon chunks of a nucleotide list together with the trailing remainder
of fewer than three nucleotides. -/
def chunk3rem : List Nuc → List Codon × List Nuc
  | a :: b :: c :: rest =>
    let pr := chunk3rem rest
    ((a, b, c) :: pr.1, pr.2)
  | xs => ([], xs)

/-- Modelled from the spec, section 3 (Window): per-frame state carried
across window advances: the view position of the next unconsumed
nucleotide, the pending partial codon, and the frame machine state
(`FrameState.accumulated` persists across window advances). -/
structure FeedState where
  pos : ℕ
  pending : List Nuc
  mstate : Option (ℕ × List Char)

/-- Feed one window's worth of fresh nucleotides to a frame machine:
complete codons are consumed, the remainder is pended for the next
window. -/
def feedNucs (cfg : ScanConfig) (fs : FeedState) (xs : List Nuc) :
    FeedState × List OrfView :=
  let pr := chunk3rem (fs.pending ++ xs)
  let run := runFrameState cfg fs.pos fs.mstate pr.1
  (⟨fs.pos + 3 * pr.1.length, pr.2, run.1⟩, run.2)

/-- Feed a list of windows in order, carrying the frame state. -/
def feedChunks (cfg : ScanConfig) : FeedState → List (List Nuc) →
    FeedState × List OrfView
  | fs, [] => (fs, [])
  | fs, w :: ws =>
    let pr := feedNucs cfg fs w
    let rest := feedChunks cfg pr.1 ws
    (rest.1, pr.2 ++ rest.2)

/-- Drop the first `n` nucleotides of a windowed stream, across window
boundaries. -/
def dropStream : ℕ → List (List Nuc) → List (List Nuc)
  | _, [] => []
  | n, w :: ws => w.drop n :: dropStream (n - w.length) ws

/-- Modelled from the spec: scan one frame of a view that is delivered
window by window.  Windows overlap on disk, but the overlap region is
only re-read into the buffer, never re-fed to the frame machines, so with
sufficient overlap a windowed pass presents each frame with the stream of
fresh chunks whose concatenation is the view. -/
def scanFrameWindowed (cfg : ScanConfig) (ws : List (List Nuc)) (off : ℕ) :
    List OrfView :=
  (feedChunks cfg ⟨off + 1, [], Option.none⟩ (dropStream off ws)).2

/-- Windowed analogue of `fwdRecords`. -/
def fwdRecordsW (cfg : ScanConfig) (ws : List (List Nuc)) (f : ℕ) :
    List PreRecord :=
  (scanFrameWindowed cfg ws (f - 1)).map fun o =>
    ⟨o.vstart, o.vend, f, o.aas⟩

/-- Windowed analogue of `revRecords`; `L` is the total sequence length. -/
def revRecordsW (cfg : ScanConfig) (L : ℕ) (rws : List (List Nuc)) (f : ℕ) :
    List PreRecord :=
  (scanFrameWindowed cfg rws (f - 4)).map fun o =>
    ⟨L - o.vstart + 1, L - o.vend + 1, f, o.aas⟩

/-- Windowed analogue of `allRecords`: the top strand is delivered as the
windows `ws`, the bottom-strand pass as the windows `rws` of the
reverse-complement view. -/
def allRecordsW (cfg : ScanConfig) (ws rws : List (List Nuc)) :
    List PreRecord :=
  (if wantWatson cfg.strand then
    fwdRecordsW cfg ws 1 ++ fwdRecordsW cfg ws 2 ++ fwdRecordsW cfg ws 3
  else []) ++
  (if wantCrick cfg.strand then
    revRecordsW cfg ws.flatten.length rws 4 ++ revRecordsW cfg ws.flatten.length rws 5 ++
      revRecordsW cfg ws.flatten.length rws 6
  else [])

/-- Modelled from the spec: a whole scan performed window by window. -/
def fullScanWindowed (cfg : ScanConfig) (ws rws : List (List Nuc)) :
    List ORFRecord :=
  numberRecords (sortRecords (allRecordsW cfg ws rws))

/-- The boundary just past an emitted ORF: the three view positions
`q..q+2` hold a complete codon and it is a stop codon. -/
def stopAfter (gc : GeneticCode) (v : List Nuc) (q : ℕ) : Prop :=
  ∃ c, chunk3 (seg v q (q + 2)) = [c] ∧ gc.translate c = .stop

/-- What a frame run guarantees of every ORF it emits from the view `v`:
positive 1-based coordinates spanning exactly its codons, at least the
minimum (and at least one) amino acid, a stop codon immediately after,
and (under start policy `None`) amino acids that are the codon-by-codon
natural translation of the spanned subrange. -/
def GoodOrf (cfg : ScanConfig) (v : List Nuc) (o : OrfView) : Prop :=
  1 ≤ o.vstart ∧ 1 ≤ o.aas.length ∧ cfg.minLen ≤ o.aas.length ∧
  o.vend + 1 = o.vstart + 3 * o.aas.length ∧
  o.vend + 3 ≤ v.length ∧
  (cfg.policy = .none →
    o.aas = (chunk3 (seg v o.vstart o.vend)).map (natRes cfg.gc)) ∧
  stopAfter cfg.gc v (o.vend + 1)

/-- Invariant of an open frame machine state at position `p`: the ORF
opened at a positive position exactly `3 * accumulated` nucleotides ago,
has accumulated at least one residue, and (under start policy `None`) the
accumulated residues translate the spanned subrange. -/
def StInv (cfg : ScanConfig) (v : List Nuc) (p : ℕ)
    (st : Option (ℕ × List Char)) : Prop :=
  ∀ s0 acc, st = some (s0, acc) →
    1 ≤ s0 ∧ p = s0 + 3 * acc.length ∧ 1 ≤ acc.length ∧
    (cfg.policy = .none →
      acc = (chunk3 (seg v s0 (p - 1))).map (natRes cfg.gc))

/-- C1: scanning `ATGAAATAG` (9 nt) with the standard code, start policy
`None` and minimum length 1 yields exactly one ORF: amino acids `MK`,
coordinates 1..6 with the stop codon `TAG` excluded, amino-acid length 2,
frame 1, numbered 1. -/
theorem orf_scan_scenario_atg :
    fullScan ⟨stdCode, .none, 1, .both⟩ [.A, .T, .G, .A, .A, .A, .T, .A, .G] =
      [⟨1, 1, 6, 1, ['M', 'K']⟩] ∧
    aminoAcidLength ⟨1, 1, 6, 1, ['M', 'K']⟩ = 2 := by
  constructor
  · decide
  · rfl

/-- C7: constructing a genetic-code table from a numeric id succeeds
exactly for the enumerated NCBI transl_table ids, and any other id makes
the whole run fail with `InvalidCodeId` before any sequence is scanned. -/
theorem genetic_code_id_validation (id : ℕ) :
    ((∃ gc, geneticCodeFromId id = .ok gc) ↔
      id ∈ [1, 2, 3, 4, 5, 6, 9, 10, 11, 12, 13, 14, 16, 21, 22, 23, 24, 25]) ∧
    (id ∉ [1, 2, 3, 4, 5, 6, 9, 10, 11, 12, 13, 14, 16, 21, 22, 23, 24, 25] →
      ∀ (policy : StartPolicy) (minLen : ℕ) (strand : Strand) (s : List Nuc),
        runTranslate ⟨id, policy, minLen, strand⟩ s = .error .invalidCodeId) := by
  constructor
  · constructor
    · rintro ⟨gc, hgc⟩
      by_contra hmem
      rw [geneticCodeFromId.eq_def] at hgc
      split at hgc <;> simp_all
    · intro hmem
      fin_cases hmem <;> exact ⟨_, rfl⟩
  · intro hmem policy minLen strand s
    unfold runTranslate
    rw [geneticCodeFromId.eq_def]
    split <;> simp_all

lemma length_numberRecords (l : List PreRecord) :
    (numberRecords l).length = l.length := by
  simp [numberRecords]

lemma fullScan_length (cfg : ScanConfig) (s : List Nuc) :
    (fullScan cfg s).length = (sortRecords (allRecords cfg s)).length := by
  simp [fullScan, length_numberRecords]

lemma fullScan_getElem (cfg : ScanConfig) (s : List Nuc) (i : ℕ)
    (h : i < (fullScan cfg s).length)
    (h2 : i < (sortRecords (allRecords cfg s)).length) :
    (fullScan cfg s)[i] =
      ⟨i + 1, (sortRecords (allRecords cfg s))[i].startCoord,
        (sortRecords (allRecords cfg s))[i].endCoord,
        (sortRecords (allRecords cfg s))[i].frameIndex,
        (sortRecords (allRecords cfg s))[i].aas⟩ := by
  simp [fullScan, numberRecords, List.getElem_zipWith]

lemma strandFlagP_le_one (r : PreRecord) : strandFlagP r ≤ 1 := by
  unfold strandFlagP
  split <;> omega

lemma sortRecords_pairwise (l : List PreRecord) (i j : ℕ)
    (hi : i < (sortRecords l).length) (hj : j < (sortRecords l).length)
    (hij : i < j) :
    orderKey (sortRecords l)[i] ≤ orderKey (sortRecords l)[j] := by
  have hs : List.Sorted recLE (sortRecords l) := List.sorted_insertionSort recLE l
  exact List.pairwise_iff_getElem.1 hs i j hi hj hij

/-- C2: emitted ORFs are ordered by ascending top-strand position
`min(startCoord, endCoord)`; a forward-strand ORF precedes a
reverse-strand ORF starting at the same top-strand coordinate; and the
assigned numbers are the dense 1-based sequence over the emitted records
in order. -/
theorem orf_emission_order (cfg : ScanConfig) (s : List Nuc) (A B : ORFRecord)
    (hA : A ∈ fullScan cfg s) (hB : B ∈ fullScan cfg s) :
    (min A.startCoord A.endCoord < min B.startCoord B.endCoord →
      A.number < B.number) ∧
    (min A.startCoord A.endCoord = min B.startCoord B.endCoord →
      A.frameIndex ≤ 3 → 3 < B.frameIndex → A.number < B.number) ∧
    (fullScan cfg s).map ORFRecord.number =
      List.range' 1 (fullScan cfg s).length := by
  obtain ⟨i, hi, hAeq⟩ := List.mem_iff_getElem.1 hA
  obtain ⟨j, hj, hBeq⟩ := List.mem_iff_getElem.1 hB
  have hi2 : i < (sortRecords (allRecords cfg s)).length := by
    rw [← fullScan_length]; exact hi
  have hj2 : j < (sortRecords (allRecords cfg s)).length := by
    rw [← fullScan_length]; exact hj
  subst hAeq hBeq
  rw [fullScan_getElem cfg s i hi hi2, fullScan_getElem cfg s j hj hj2]
  refine ⟨?_, ?_, ?_⟩
  · intro hmin
    simp only at hmin ⊢
    rcases Nat.lt_trichotomy i j with hlt | hEq | hgt
    · omega
    · subst hEq; omega
    · exfalso
      have hkey := sortRecords_pairwise (allRecords cfg s) j i hj2 hi2 hgt
      have f1 := strandFlagP_le_one (sortRecords (allRecords cfg s))[i]
      have f2 := strandFlagP_le_one (sortRecords (allRecords cfg s))[j]
      simp only [orderKey, minCoordP] at hkey
      omega
  · intro hmin hfa hfb
    simp only at hmin hfa hfb ⊢
    rcases Nat.lt_trichotomy i j with hlt | hEq | hgt
    · omega
    · exfalso; subst hEq; omega
    · exfalso
      have hkey := sortRecords_pairwise (allRecords cfg s) j i hj2 hi2 hgt
      have fA : strandFlagP (sortRecords (allRecords cfg s))[i] = 0 := by
        simp [strandFlagP, hfa]
      have fB : strandFlagP (sortRecords (allRecords cfg s))[j] = 1 := by
        simp [strandFlagP]; omega
      simp only [orderKey, minCoordP] at hkey
      omega
  · apply List.ext_getElem
    · simp [fullScan, numberRecords, List.length_range']
    · intro n h1 h2
      have hn : n < (fullScan cfg s).length := by
        simpa using h1
      have hn2 : n < (sortRecords (allRecords cfg s)).length := by
        rw [← fullScan_length]; exact hn
      rw [List.getElem_map, fullScan_getElem cfg s n hn hn2, List.getElem_range']
      simp
      omega

lemma mem_fullScan_shape (cfg : ScanConfig) (s : List Nuc) (R : ORFRecord)
    (hR : R ∈ fullScan cfg s) :
    ∃ r ∈ allRecords cfg s, R.startCoord = r.startCoord ∧
      R.endCoord = r.endCoord ∧ R.frameIndex = r.frameIndex ∧ R.aas = r.aas := by
  obtain ⟨i, hi, hReq⟩ := List.mem_iff_getElem.1 hR
  have hi2 : i < (sortRecords (allRecords cfg s)).length := by
    rw [← fullScan_length]; exact hi
  refine ⟨(sortRecords (allRecords cfg s))[i], ?_, ?_⟩
  · exact ((List.perm_insertionSort recLE _).mem_iff).1 (List.getElem_mem hi2)
  · subst hReq
    rw [fullScan_getElem cfg s i hi hi2]
    exact ⟨rfl, rfl, rfl, rfl⟩

lemma mem_allRecords (cfg : ScanConfig) (s : List Nuc) (r : PreRecord)
    (hr : r ∈ allRecords cfg s) :
    (∃ off o, off < 3 ∧ o ∈ scanFrameView cfg s off ∧
      r = ⟨o.vstart, o.vend, off + 1, o.aas⟩) ∨
    (∃ off o, off < 3 ∧ o ∈ scanFrameView cfg (revcomp s) off ∧
      r = ⟨s.length - o.vstart + 1, s.length - o.vend + 1, off + 4, o.aas⟩) := by
  unfold allRecords at hr
  rcases List.mem_append.1 hr with h | h
  · left
    split at h
    · rcases List.mem_append.1 h with h2 | h2
      · rcases List.mem_append.1 h2 with h3 | h3
        · obtain ⟨o, ho, hoeq⟩ := List.mem_map.1 h3
          exact ⟨0, o, by omega, ho, hoeq.symm⟩
        · obtain ⟨o, ho, hoeq⟩ := List.mem_map.1 h3
          exact ⟨1, o, by omega, ho, hoeq.symm⟩
      · obtain ⟨o, ho, hoeq⟩ := List.mem_map.1 h2
        exact ⟨2, o, by omega, ho, hoeq.symm⟩
    · simp at h
  · right
    split at h
    · rcases List.mem_append.1 h with h2 | h2
      · rcases List.mem_append.1 h2 with h3 | h3
        · obtain ⟨o, ho, hoeq⟩ := List.mem_map.1 h3
          exact ⟨0, o, by omega, ho, hoeq.symm⟩
        · obtain ⟨o, ho, hoeq⟩ := List.mem_map.1 h3
          exact ⟨1, o, by omega, ho, hoeq.symm⟩
      · obtain ⟨o, ho, hoeq⟩ := List.mem_map.1 h2
        exact ⟨2, o, by omega, ho, hoeq.symm⟩
    · simp at h

lemma runFrameState_minLen (cfg : ScanConfig) :
    ∀ (cs : List Codon) (p : ℕ) (st : Option (ℕ × List Char)) (o : OrfView),
      o ∈ (runFrameState cfg p st cs).2 → cfg.minLen ≤ o.aas.length := by
  intro cs
  induction cs with
  | nil =>
    intro p st o ho
    simp [runFrameState] at ho
  | cons c cs ih =>
    intro p st o ho
    simp only [runFrameState, List.mem_append] at ho
    rcases ho with ho | ho
    · rcases st with _ | ⟨s0, acc⟩
      · simp only [stepFrame] at ho
        split at ho <;> simp at ho
      · simp only [stepFrame] at ho
        split_ifs at ho with h1 h2
        · simp at ho
          subst ho
          exact h2
        · simp at ho
        · simp at ho
    · exact ih _ _ o ho

/-- C4: every emitted ORF has at least the configured minimum number of
amino acids; a completed ORF of exactly minimum minus one amino acids
(`M` from `ATGTAA` with minimum 2) is discarded without error, while one
of exactly the minimum (`MK` from `ATGAAATAG` with minimum 2) is
emitted. -/
theorem orf_min_length_boundary (cfg : ScanConfig) (s : List Nuc)
    (R : ORFRecord) (hR : R ∈ fullScan cfg s) :
    cfg.minLen ≤ aminoAcidLength R ∧
    fullScan ⟨stdCode, .none, 2, .both⟩ [.A, .T, .G, .T, .A, .A] = [] ∧
    fullScan ⟨stdCode, .none, 2, .both⟩ [.A, .T, .G, .A, .A, .A, .T, .A, .G] =
      [⟨1, 1, 6, 1, ['M', 'K']⟩] := by
  refine ⟨?_, by decide, by decide⟩
  obtain ⟨r, hrmem, _, _, _, h4⟩ := mem_fullScan_shape cfg s R hR
  have hlen : cfg.minLen ≤ r.aas.length := by
    rcases mem_allRecords cfg s r hrmem with ⟨off, o, _, ho, rfl⟩ | ⟨off, o, _, ho, rfl⟩
    · exact runFrameState_minLen cfg _ _ _ o ho
    · exact runFrameState_minLen cfg _ _ _ o ho
  rw [aminoAcidLength, h4]
  exact hlen

lemma isStop_eq (gc : GeneticCode) (c : Codon) :
    isStop gc c = true ↔ gc.translate c = .stop := by
  unfold isStop
  split <;> simp_all

lemma chunk3_eq_cons {xs : List Nuc} {y : Codon} {ys : List Codon}
    (h : chunk3 xs = y :: ys) :
    ∃ a b c t, xs = a :: b :: c :: t ∧ y = (a, b, c) ∧ ys = chunk3 t := by
  rcases xs with _ | ⟨a, _ | ⟨b, _ | ⟨c, t⟩⟩⟩
  · simp [chunk3] at h
  · simp [chunk3] at h
  · simp [chunk3] at h
  · simp only [chunk3] at h
    injection h with h1 h2
    exact ⟨a, b, c, t, rfl, h1.symm, h2.symm⟩

theorem chunk3_append : ∀ (xs ys : List Nuc), xs.length % 3 = 0 →
    chunk3 (xs ++ ys) = chunk3 xs ++ chunk3 ys
  | [], _, _ => by simp [chunk3]
  | [a], _, h => by simp at h
  | [a, b], _, h => by simp at h
  | a :: b :: c :: t, ys, h => by
    have h2 : t.length % 3 = 0 := by
      simp [List.length_cons] at h
      omega
    simp only [List.cons_append, chunk3]
    show (a, b, c) :: chunk3 (t ++ ys) = (a, b, c) :: (chunk3 t ++ chunk3 ys)
    rw [chunk3_append t ys h2]

lemma seg_length (v : List Nuc) (s e : ℕ) (h1 : 1 ≤ s) (h2 : e ≤ v.length) :
    (seg v s e).length = e + 1 - s := by
  simp [seg, List.length_take, List.length_drop]
  omega

lemma drop_cons3_length (v : List Nuc) (p : ℕ) (a b c : Nuc) (t : List Nuc)
    (hd : v.drop (p - 1) = a :: b :: c :: t) : p + 2 ≤ v.length := by
  have h := congrArg List.length hd
  simp [List.length_drop] at h
  omega

lemma drop_step (v : List Nuc) (p : ℕ) (a b c : Nuc) (t : List Nuc)
    (hp : 1 ≤ p) (hd : v.drop (p - 1) = a :: b :: c :: t) :
    v.drop (p + 2) = t := by
  have h1 : v.drop (p + 2) = (v.drop (p - 1)).drop 3 := by
    rw [List.drop_drop]
    congr 1
    omega
  rw [h1, hd]
  rfl

lemma seg_codon (v : List Nuc) (p : ℕ) (a b c : Nuc) (t : List Nuc)
    (hd : v.drop (p - 1) = a :: b :: c :: t) :
    seg v p (p + 2) = [a, b, c] := by
  unfold seg
  have h1 : p + 2 + 1 - p = 3 := by omega
  rw [h1, hd]
  rfl

lemma seg_extend (v : List Nuc) (s0 p : ℕ) (a b c : Nuc) (t : List Nuc)
    (h1 : 1 ≤ s0) (h2 : s0 ≤ p) (hd : v.drop (p - 1) = a :: b :: c :: t) :
    seg v s0 (p + 2) = seg v s0 (p - 1) ++ [a, b, c] := by
  unfold seg
  have h3 : p + 2 + 1 - s0 = (p - s0) + 3 := by omega
  rw [h3, List.take_add]
  congr 1
  · congr 1
    omega
  · rw [List.drop_drop]
    have h4 : s0 - 1 + (p - s0) = p - 1 := by omega
    rw [h4, hd]
    rfl

lemma StInv_none (cfg : ScanConfig) (v : List Nuc) (p : ℕ) :
    StInv cfg v p Option.none := by
  intro s0 acc h
  cases h

lemma runFrame_good (cfg : ScanConfig) (v : List Nuc) :
    ∀ (cs : List Codon) (p : ℕ) (st : Option (ℕ × List Char)),
      1 ≤ p → cs = chunk3 (v.drop (p - 1)) → StInv cfg v p st →
      ∀ o ∈ (runFrameState cfg p st cs).2, GoodOrf cfg v o := by
  intro cs
  induction cs with
  | nil =>
    intro p st hp hcs hst o ho
    simp [runFrameState] at ho
  | cons c cs ih =>
    intro p st hp hcs hst o ho
    obtain ⟨a, b, d, t, hdrop, hcEq, hcsEq⟩ := chunk3_eq_cons hcs.symm
    subst hcEq
    have hlen : p + 2 ≤ v.length := drop_cons3_length v p a b d t hdrop
    have hdt : v.drop (p + 2) = t := drop_step v p a b d t hp hdrop
    have hcs' : cs = chunk3 (v.drop (p + 3 - 1)) := by
      have h1 : p + 3 - 1 = p + 2 := by omega
      rw [h1, hdt]
      exact hcsEq
    simp only [runFrameState, List.mem_append] at ho
    rcases st with _ | ⟨s0, acc⟩
    · simp only [stepFrame] at ho
      by_cases hOpen : mayOpen cfg.gc cfg.policy (a, b, d)
      · rw [if_pos hOpen] at ho
        rcases ho with ho | ho
        · simp at ho
        · refine ih (p + 3)
            (some (p, [openResidue cfg.gc cfg.policy (a, b, d)]))
            (by omega) hcs' ?_ o ho
          intro s1 acc1 heq
          injection heq with heq
          injection heq with hq1 hq2
          subst hq1
          subst hq2
          refine ⟨hp, by simp, by simp, ?_⟩
          intro hpol
          have hseg : seg v p (p + 3 - 1) = [a, b, d] := by
            have h1 : p + 3 - 1 = p + 2 := by omega
            rw [h1]
            exact seg_codon v p a b d t hdrop
          rw [hseg]
          simp [chunk3, openResidue, hpol]
      · rw [if_neg hOpen] at ho
        rcases ho with ho | ho
        · simp at ho
        · exact ih (p + 3) Option.none (by omega) hcs' (StInv_none cfg v _) o ho
    · obtain ⟨hs1, hps, hacc1, haccT⟩ := hst s0 acc rfl
      simp only [stepFrame] at ho
      by_cases hstop : isStop cfg.gc (a, b, d)
      · rw [if_pos hstop] at ho
        by_cases hmin : cfg.minLen ≤ acc.length
        · rw [if_pos hmin] at ho
          rcases ho with ho | ho
          · simp at ho
            subst ho
            unfold GoodOrf
            refine ⟨hs1, hacc1, hmin, by simp; omega, by simp; omega, ?_, ?_⟩
            · intro hpol
              exact haccT hpol
            · unfold stopAfter
              refine ⟨(a, b, d), ?_, (isStop_eq cfg.gc _).1 hstop⟩
              have h1 : p - 1 + 1 = p := by omega
              have h3 : p - 1 + 1 + 2 = p + 2 := by omega
              simp only [h1, h3]
              rw [seg_codon v p a b d t hdrop]
              rfl
          · exact ih (p + 3) Option.none (by omega) hcs' (StInv_none cfg v _) o ho
        · rw [if_neg hmin] at ho
          rcases ho with ho | ho
          · simp at ho
          · exact ih (p + 3) Option.none (by omega) hcs' (StInv_none cfg v _) o ho
      · rw [if_neg hstop] at ho
        rcases ho with ho | ho
        · simp at ho
        · refine ih (p + 3) (some (s0, acc ++ [natRes cfg.gc (a, b, d)]))
            (by omega) hcs' ?_ o ho
          intro s1 acc1 heq
          injection heq with heq
          injection heq with hq1 hq2
          subst hq1
          subst hq2
          refine ⟨hs1, by simp [List.length_append]; omega, by simp, ?_⟩
          intro hpol
          have h1 : p + 3 - 1 = p + 2 := by omega
          rw [h1, seg_extend v s0 p a b d t hs1 (by omega) hdrop]
          have hmod : (seg v s0 (p - 1)).length % 3 = 0 := by
            rw [seg_length v s0 (p - 1) hs1 (by omega)]
            omega
          rw [chunk3_append _ _ hmod, List.map_append, ← haccT hpol]
          congr 1

lemma scanFrameView_good (cfg : ScanConfig) (v : List Nuc) (off : ℕ)
    (o : OrfView) (ho : o ∈ scanFrameView cfg v off) : GoodOrf cfg v o := by
  refine runFrame_good cfg v (chunk3 (v.drop off)) (off + 1) Option.none
    (by omega) ?_ (StInv_none cfg v _) o ho
  congr 1

lemma reverse_slice {α : Type} (xs : List α) (i k : ℕ) (h : i + k ≤ xs.length) :
    ((xs.drop i).take k).reverse = (xs.reverse.drop (xs.length - i - k)).take k := by
  apply List.ext_getElem
  · simp [List.length_reverse, List.length_take, List.length_drop]
    omega
  · intro n h1 h2
    rw [List.getElem_reverse, List.getElem_take, List.getElem_drop,
      List.getElem_take, List.getElem_drop, List.getElem_reverse]
    congr 1
    simp only [List.length_reverse, List.length_take, List.length_drop] at h1 h2 ⊢
    omega

lemma revcomp_length (v : List Nuc) : (revcomp v).length = v.length := by
  simp [revcomp]

lemma revcomp_seg (v : List Nuc) (aq bq : ℕ) (h1 : 1 ≤ aq) (h2 : aq ≤ bq)
    (h3 : bq ≤ v.length) :
    revcomp (seg v aq bq) = seg (revcomp v) (v.length - bq + 1) (v.length - aq + 1) := by
  unfold revcomp seg
  rw [List.map_take, List.map_drop]
  have e1 : v.length - bq + 1 - 1 = v.length - bq := by omega
  have e2 : v.length - aq + 1 + 1 - (v.length - bq + 1) = bq + 1 - aq := by omega
  rw [e1, e2]
  have e3 : v.length - bq = (v.map complement).length - (aq - 1) - (bq + 1 - aq) := by
    simp
    omega
  rw [e3]
  exact reverse_slice (v.map complement) (aq - 1) (bq + 1 - aq) (by simp; omega)

/-- C3, counterexample: under `StartPolicy = RequireAnyInitiator` with the
standard code, scanning `CTGAAATAG` emits one ORF with amino acids `MK`
(the `CTG` initiator is forced to Methionine), but re-translating its
subrange 1..6 with the configured code gives `LK`: the round-trip claim
fails as stated. -/
theorem orf_roundtrip_counterexample :
    ∃ R, R ∈ fullScan ⟨stdCode, .requireAnyInitiator, 1, .both⟩
        [.C, .T, .G, .A, .A, .A, .T, .A, .G] ∧
      roundTrip stdCode [.C, .T, .G, .A, .A, .A, .T, .A, .G]
        R.startCoord R.endCoord ≠ R.aas := by
  refine ⟨⟨1, 1, 6, 1, ['M', 'K']⟩, by decide, by decide⟩

/-- C3, amended: under start policy `None` (the default), independently
re-translating the nucleotide subrange `[startCoord, endCoord]` of any
emitted ORF (reverse-complemented first when the start exceeds the end),
codon by codon with the configured genetic code, reproduces the emitted
amino-acid sequence exactly.  (Under initiator-requiring policies the
initiator position is emitted as Methionine and may differ.) -/
theorem orf_roundtrip_policy_none (cfg : ScanConfig) (s : List Nuc)
    (R : ORFRecord) (hpol : cfg.policy = .none) (hR : R ∈ fullScan cfg s) :
    roundTrip cfg.gc s R.startCoord R.endCoord = R.aas := by
  obtain ⟨r, hrmem, e1, e2, _, e4⟩ := mem_fullScan_shape cfg s R hR
  rw [e1, e2, e4]
  rcases mem_allRecords cfg s r hrmem with ⟨off, o, _, ho, rfl⟩ | ⟨off, o, _, ho, rfl⟩
  · have hg := scanFrameView_good cfg s off o ho
    unfold GoodOrf at hg
    obtain ⟨g1, g2, _, g4, g5, g6, _⟩ := hg
    show roundTrip cfg.gc s o.vstart o.vend = o.aas
    unfold roundTrip
    rw [if_pos (by omega : o.vstart ≤ o.vend)]
    exact (g6 hpol).symm
  · have hg := scanFrameView_good cfg (revcomp s) off o ho
    unfold GoodOrf at hg
    obtain ⟨g1, g2, _, g4, g5, g6, _⟩ := hg
    rw [revcomp_length] at g5
    show roundTrip cfg.gc s (s.length - o.vstart + 1) (s.length - o.vend + 1) = o.aas
    unfold roundTrip
    have hvv : o.vstart < o.vend := by omega
    rw [if_neg (by omega : ¬(s.length - o.vstart + 1 ≤ s.length - o.vend + 1))]
    have hseg : revcomp (seg s (s.length - o.vend + 1) (s.length - o.vstart + 1)) =
        seg (revcomp s) o.vstart o.vend := by
      rw [revcomp_seg s (s.length - o.vend + 1) (s.length - o.vstart + 1)
        (by omega) (by omega) (by omega)]
      have c1 : s.length - (s.length - o.vstart + 1) + 1 = o.vstart := by omega
      have c2 : s.length - (s.length - o.vend + 1) + 1 = o.vend := by omega
      rw [c1, c2]
    rw [hseg]
    exact (g6 hpol).symm

/-- C6: every emitted ORF is bounded by a stop codon just past its far
end (in reading direction, on its strand), so an ORF still open when the
sequence ends is never emitted; the scan of `ATGGCC`, which leaves frames
open at the end of the sequence, returns the empty list rather than an
error. -/
theorem open_orf_at_end_discarded (cfg : ScanConfig) (s : List Nuc)
    (R : ORFRecord) (hR : R ∈ fullScan cfg s) :
    (R.startCoord ≤ R.endCoord → stopAfter cfg.gc s (R.endCoord + 1)) ∧
    (R.endCoord < R.startCoord →
      stopAfter cfg.gc (revcomp s) (s.length - R.endCoord + 2)) ∧
    fullScan ⟨stdCode, .none, 1, .both⟩ [.A, .T, .G, .G, .C, .C] = [] := by
  obtain ⟨r, hrmem, e1, e2, _, _⟩ := mem_fullScan_shape cfg s R hR
  rw [e1, e2]
  rcases mem_allRecords cfg s r hrmem with ⟨off, o, _, ho, rfl⟩ | ⟨off, o, _, ho, rfl⟩
  · have hg := scanFrameView_good cfg s off o ho
    unfold GoodOrf at hg
    obtain ⟨g1, g2, _, g4, g5, _, g7⟩ := hg
    refine ⟨?_, ?_, by decide⟩
    · intro _
      exact g7
    · intro habs
      exact absurd habs (by show ¬(o.vend < o.vstart); omega)
  · have hg := scanFrameView_good cfg (revcomp s) off o ho
    unfold GoodOrf at hg
    obtain ⟨g1, g2, _, g4, g5, _, g7⟩ := hg
    rw [revcomp_length] at g5
    refine ⟨?_, ?_, by decide⟩
    · intro habs
      exact absurd habs
        (by show ¬(s.length - o.vstart + 1 ≤ s.length - o.vend + 1); omega)
    · intro _
      have hq : s.length - (s.length - o.vend + 1) + 2 = o.vend + 1 := by omega
      show stopAfter cfg.gc (revcomp s) (s.length - (s.length - o.vend + 1) + 2)
      rw [hq]
      exact g7

lemma chunk3_short (xs : List Nuc) (h : xs.length < 3) : chunk3 xs = [] := by
  rcases xs with _ | ⟨a, _ | ⟨b, _ | ⟨c, t⟩⟩⟩
  · rfl
  · rfl
  · rfl
  · simp only [List.length_cons] at h
    omega

theorem chunk3rem_fst : ∀ xs : List Nuc, (chunk3rem xs).1 = chunk3 xs
  | [] => rfl
  | [_] => rfl
  | [_, _] => rfl
  | a :: b :: c :: t => by
    simp only [chunk3rem, chunk3]
    rw [chunk3rem_fst t]

theorem chunk3rem_snd_lt : ∀ xs : List Nuc, (chunk3rem xs).2.length < 3
  | [] => by simp [chunk3rem]
  | [_] => by simp [chunk3rem]
  | [_, _] => by simp [chunk3rem]
  | _ :: _ :: _ :: t => by
    simp only [chunk3rem]
    exact chunk3rem_snd_lt t

theorem chunk3_append_rem : ∀ (u ys : List Nuc),
    chunk3 (u ++ ys) = chunk3 u ++ chunk3 ((chunk3rem u).2 ++ ys)
  | [], ys => by simp [chunk3, chunk3rem]
  | [a], ys => by simp [chunk3, chunk3rem]
  | [a, b], ys => by simp [chunk3, chunk3rem]
  | a :: b :: c :: t, ys => by
    simp only [List.cons_append, chunk3, chunk3rem]
    show (a, b, c) :: chunk3 (t ++ ys) =
      (a, b, c) :: (chunk3 t ++ chunk3 ((chunk3rem t).2 ++ ys))
    rw [chunk3_append_rem t ys]

lemma runFrameState_append (cfg : ScanConfig) :
    ∀ (cs1 : List Codon) (p : ℕ) (st : Option (ℕ × List Char))
      (cs2 : List Codon),
      runFrameState cfg p st (cs1 ++ cs2) =
        ((runFrameState cfg (p + 3 * cs1.length)
            (runFrameState cfg p st cs1).1 cs2).1,
         (runFrameState cfg p st cs1).2 ++
           (runFrameState cfg (p + 3 * cs1.length)
             (runFrameState cfg p st cs1).1 cs2).2) := by
  intro cs1
  induction cs1 with
  | nil =>
    intro p st cs2
    simp [runFrameState]
  | cons c cs1 ih =>
    intro p st cs2
    simp only [List.cons_append, runFrameState, List.length_cons, List.append_eq]
    rw [show p + 3 * (cs1.length + 1) = p + 3 + 3 * cs1.length from by ring]
    rw [ih]
    simp [List.append_assoc]

lemma dropStream_flatten : ∀ (n : ℕ) (ws : List (List Nuc)),
    (dropStream n ws).flatten = ws.flatten.drop n
  | _, [] => by simp [dropStream]
  | n, w :: ws => by
    simp only [dropStream, List.flatten_cons, List.drop_append_eq_append_drop]
    rw [dropStream_flatten (n - w.length) ws]

lemma feedChunks_eq (cfg : ScanConfig) :
    ∀ (ws : List (List Nuc)) (p : ℕ) (pend : List Nuc)
      (st : Option (ℕ × List Char)), pend.length < 3 →
      (feedChunks cfg ⟨p, pend, st⟩ ws).2 =
        (runFrameState cfg p st (chunk3 (pend ++ ws.flatten))).2 := by
  intro ws
  induction ws with
  | nil =>
    intro p pend st hp
    simp only [feedChunks, List.flatten_nil, List.append_nil]
    rw [chunk3_short pend hp]
    simp [runFrameState]
  | cons w ws ih =>
    intro p pend st hp
    simp only [feedChunks, feedNucs, List.flatten_cons]
    rw [ih (p + 3 * (chunk3rem (pend ++ w)).1.length) (chunk3rem (pend ++ w)).2
      (runFrameState cfg p st (chunk3rem (pend ++ w)).1).1
      (chunk3rem_snd_lt (pend ++ w))]
    rw [show pend ++ (w ++ ws.flatten) = (pend ++ w) ++ ws.flatten from by
      simp [List.append_assoc]]
    rw [chunk3_append_rem (pend ++ w) ws.flatten]
    rw [runFrameState_append cfg (chunk3 (pend ++ w)) p st]
    rw [chunk3rem_fst (pend ++ w)]

lemma scanFrameWindowed_eq (cfg : ScanConfig) (ws : List (List Nuc))
    (off : ℕ) :
    scanFrameWindowed cfg ws off = scanFrameView cfg ws.flatten off := by
  unfold scanFrameWindowed scanFrameView runFrame
  rw [feedChunks_eq cfg (dropStream off ws) (off + 1) [] Option.none (by simp)]
  rw [List.nil_append, dropStream_flatten off ws]

/-- C5: scanning a sequence delivered window by window — frame state,
including the accumulated amino acids, carried across window advances, as
the spec's window design requires of sufficiently overlapping windows —
produces an ORF list identical in records, order and numbering to
scanning the whole sequence as one unbroken buffer, for every
decomposition of the sequence (and of its reverse complement for the
bottom-strand pass) into windows. -/
theorem windowed_scan_consistent (cfg : ScanConfig) (ws rws : List (List Nuc))
    (hr : rws.flatten = revcomp ws.flatten) :
    fullScanWindowed cfg ws rws = fullScan cfg ws.flatten := by
  have hf : ∀ f, fwdRecordsW cfg ws f = fwdRecords cfg ws.flatten f := by
    intro f
    unfold fwdRecordsW fwdRecords
    rw [scanFrameWindowed_eq]
  have hrv : ∀ f, revRecordsW cfg ws.flatten.length rws f =
      revRecords cfg ws.flatten f := by
    intro f
    unfold revRecordsW revRecords
    rw [scanFrameWindowed_eq, hr]
  unfold fullScanWindowed fullScan allRecordsW allRecords
  rw [hf 1, hf 2, hf 3, hrv 4, hrv 5, hrv 6]

/-- Witness for C2 at the concrete scan of `ATGAAATAG`. -/
theorem orf_emission_order_witness :
    (min (1 : ℕ) 6 < min 1 6 → (1 : ℕ) < 1) ∧
    (min (1 : ℕ) 6 = min 1 6 → (1 : ℕ) ≤ 3 → 3 < 1 → (1 : ℕ) < 1) ∧
    (fullScan ⟨stdCode, .none, 1, .both⟩
        [.A, .T, .G, .A, .A, .A, .T, .A, .G]).map ORFRecord.number =
      List.range' 1 (fullScan ⟨stdCode, .none, 1, .both⟩
        [.A, .T, .G, .A, .A, .A, .T, .A, .G]).length :=
  orf_emission_order ⟨stdCode, .none, 1, .both⟩
    [.A, .T, .G, .A, .A, .A, .T, .A, .G]
    ⟨1, 1, 6, 1, ['M', 'K']⟩ ⟨1, 1, 6, 1, ['M', 'K']⟩ (by decide) (by decide)

/-- Witness for C4 at the concrete scan of `ATGAAATAG`. -/
theorem orf_min_length_boundary_witness :
    (1 : ℕ) ≤ aminoAcidLength ⟨1, 1, 6, 1, ['M', 'K']⟩ ∧
    fullScan ⟨stdCode, .none, 2, .both⟩ [.A, .T, .G, .T, .A, .A] = [] ∧
    fullScan ⟨stdCode, .none, 2, .both⟩ [.A, .T, .G, .A, .A, .A, .T, .A, .G] =
      [⟨1, 1, 6, 1, ['M', 'K']⟩] :=
  orf_min_length_boundary ⟨stdCode, .none, 1, .both⟩
    [.A, .T, .G, .A, .A, .A, .T, .A, .G] ⟨1, 1, 6, 1, ['M', 'K']⟩ (by decide)

/-- Witness for the amended C3 at the concrete scan of `ATGAAATAG`. -/
theorem orf_roundtrip_policy_none_witness :
    roundTrip stdCode [.A, .T, .G, .A, .A, .A, .T, .A, .G] 1 6 = ['M', 'K'] :=
  orf_roundtrip_policy_none ⟨stdCode, .none, 1, .both⟩
    [.A, .T, .G, .A, .A, .A, .T, .A, .G] ⟨1, 1, 6, 1, ['M', 'K']⟩ rfl (by decide)

/-- Witness for C6 at the concrete scan of `ATGAAATAG`. -/
theorem open_orf_at_end_discarded_witness :
    ((1 : ℕ) ≤ 6 →
      stopAfter stdCode [.A, .T, .G, .A, .A, .A, .T, .A, .G] 7) ∧
    ((6 : ℕ) < 1 →
      stopAfter stdCode (revcomp [.A, .T, .G, .A, .A, .A, .T, .A, .G]) 5) ∧
    fullScan ⟨stdCode, .none, 1, .both⟩ [.A, .T, .G, .G, .C, .C] = [] :=
  open_orf_at_end_discarded ⟨stdCode, .none, 1, .both⟩
    [.A, .T, .G, .A, .A, .A, .T, .A, .G] ⟨1, 1, 6, 1, ['M', 'K']⟩ (by decide)

/-- Witness for C5: `ATGAAATAG` split into windows of 4 and 5
nucleotides, its reverse complement into windows of 3 and 6. -/
theorem windowed_scan_consistent_witness :
    fullScanWindowed ⟨stdCode, .none, 1, .both⟩
        [[.A, .T, .G, .A], [.A, .A, .T, .A, .G]]
        [[.C, .T, .A], [.T, .T, .T, .C, .A, .T]] =
      fullScan ⟨stdCode, .none, 1, .both⟩
        ([[.A, .T, .G, .A], [.A, .A, .T, .A, .G]] : List (List Nuc)).flatten :=
  windowed_scan_consistent ⟨stdCode, .none, 1, .both⟩
    [[.A, .T, .G, .A], [.A, .A, .T, .A, .G]]
    [[.C, .T, .A], [.T, .T, .T, .C, .A, .T]] (by decide)

/-- Witness for C7 at the invalid id 7. -/
theorem genetic_code_id_validation_witness :
    runTranslate ⟨7, .none, 20, .both⟩ [] = .error .invalidCodeId :=
  (genetic_code_id_validation 7).2 (by decide) .none 20 .both []
